import Mathlib

/-
Verification of the vaultkey password generation library.

The development shallowly embeds src/src/builder.rs, src/src/options.rs,
src/src/error.rs and src/src/constants.rs. Every character handled by the
program is ASCII, so the Rust byte length of the password string coincides
with its character count and passwords are modelled as lists of characters.
Randomness (the external rand crate) is modelled as a stream of natural
numbers consumed through an explicit counter; each draw over an index range
0..n is the next stream value reduced modulo n, which is uniform over the
range whenever the stream is, matching the contract in the spec. A Rust
panic (an out-of-range draw over an empty range, or a failing index lookup)
is modelled by the value none, which the generator surfaces as a dedicated
crashed outcome.
-/

namespace VaultKey

/-- Configuration options for password generation, from src/src/options.rs. -/
structure PasswordOptions where
  length : Nat
  include_uppercase : Bool
  include_lowercase : Bool
  include_digits : Bool
  include_specials : Bool
  min_digits : Nat
  min_specials : Nat
  avoid_ambiguous : Bool
deriving DecidableEq

/-- Error type from src/src/error.rs. -/
inductive VaultKeyError where
  | PasswordTooShort
  | NoCharacterTypesSelected
deriving DecidableEq

/-- Outcome of a generation run: a password, a reported error, or a hit of
a panic branch of the Rust code (array indexing or an empty random range). -/
inductive GenOutcome where
  | ok (pw : List Char)
  | err (e : VaultKeyError)
  | crashed
deriving DecidableEq

/-- Uppercase letters, from src/src/constants.rs. -/
def UPPERCASE : List Char := "ABCDEFGHIJKLMNOPQRSTUVWXYZ".toList

/-- Lowercase letters, from src/src/constants.rs. -/
def LOWERCASE : List Char := "abcdefghijklmnopqrstuvwxyz".toList

/-- Digits, from src/src/constants.rs. -/
def DIGITS : List Char := "0123456789".toList

/-- Special characters, from src/src/constants.rs. -/
def SPECIALS : List Char := "!@#$%^&*()-_=+[]\x7b\x7d|;:,.<>?/".toList

/-- Ambiguous characters, from src/src/constants.rs. -/
def AMBIGUOUS : List Char := "Il1O0".toList

/-- Pool assembly of generate_password (builder.rs lines 154 to 171):
concatenate the included classes in the fixed order uppercase, lowercase,
digits, specials, then drop ambiguous characters when requested. -/
def buildPool (opts : PasswordOptions) : List Char :=
  let pool :=
    (if opts.include_uppercase then UPPERCASE else []) ++
    (if opts.include_lowercase then LOWERCASE else []) ++
    (if opts.include_digits then DIGITS else []) ++
    (if opts.include_specials then SPECIALS else [])
  if opts.avoid_ambiguous then
    pool.filter (fun c => decide (c ∉ AMBIGUOUS))
  else pool

/-- The filter_ambiguous closure of generate_password (builder.rs lines
198 to 204). -/
def filter_ambiguous (opts : PasswordOptions) (chars : List Char) : List Char :=
  if opts.avoid_ambiguous then
    chars.filter (fun c => decide (c ∉ AMBIGUOUS))
  else chars

/-- Effective minimum number of digits (builder.rs lines 186 to 190). -/
def effectiveMinDigits (opts : PasswordOptions) : Nat :=
  min opts.min_digits (if opts.include_digits then opts.length else 0)

/-- Effective minimum number of specials (builder.rs lines 191 to 195);
Rust saturating_sub is Nat subtraction. -/
def effectiveMinSpecials (opts : PasswordOptions) : Nat :=
  min opts.min_specials
    (if opts.include_specials then opts.length - effectiveMinDigits opts else 0)

/-- Modelled from the spec: rng.random_range over the range 0..n, a call
into the external rand crate absent from src/. The spec requires a uniform
draw over the index range; it is modelled as the next stream value reduced
modulo n, in range whenever 0 < n. -/
def randIndex (ρ : Nat → Nat) (i n : Nat) : Nat := ρ i % n

/-- The seeding for-loops of generate_password (builder.rs lines 212 to 215
and 220 to 223): append n characters drawn from chars, threading the stream
counter. A draw over an empty range or a failing index lookup is a panic,
modelled as none. -/
def seedChars (ρ : Nat → Nat) (chars : List Char) :
    Nat → Nat → List Char → Option (Nat × List Char)
  | i, 0, pw => some (i, pw)
  | i, n + 1, pw =>
    match chars[randIndex ρ i chars.length]? with
    | some c => seedChars ρ chars (i + 1) n (pw ++ [c])
    | none => none

/-- The fill while-loop of generate_password (builder.rs lines 227 to 230),
as recursion on the number of missing characters: each iteration appends
exactly one character, so the loop runs target minus current length times. -/
def fillGo (ρ : Nat → Nat) (pool : List Char) :
    Nat → Nat → List Char → Option (Nat × List Char)
  | 0, i, pw => some (i, pw)
  | k + 1, i, pw =>
    match pool[randIndex ρ i pool.length]? with
    | some c => fillGo ρ pool k (i + 1) (pw ++ [c])
    | none => none

/-- The fill while-loop: while the password is shorter than target, append
one pool character. -/
def fillLoop (ρ : Nat → Nat) (pool : List Char) (target i : Nat)
    (pw : List Char) : Option (Nat × List Char) :=
  fillGo ρ pool (target - pw.length) i pw

/-- Modelled from the spec: SliceRandom shuffle (builder.rs line 234) calls
into the external rand crate absent from src/. The spec requires a uniformly
random permutation of the accumulated characters; it is modelled as
repeatedly drawing a uniform index and extracting the drawn element. -/
def shuffleGo (ρ : Nat → Nat) : Nat → Nat → List Char → List Char
  | 0, _, _ => []
  | fuel + 1, i, l =>
    match l[randIndex ρ i l.length]? with
    | some c => c :: shuffleGo ρ fuel (i + 1) (l.erase c)
    | none => []

/-- Shuffling a list of characters, driven by the random stream. -/
def shuffleChars (ρ : Nat → Nat) (i : Nat) (l : List Char) : List Char :=
  shuffleGo ρ l.length i l

/-- Propagation of a panic through the generator: a none from a loop makes
the whole run crash, otherwise the continuation receives the counter and
the accumulated password. -/
def stepOr (o : Option (Nat × List Char)) (f : Nat → List Char → GenOutcome) :
    GenOutcome :=
  match o with
  | none => GenOutcome.crashed
  | some (i, pw) => f i pw

/-- The generate_password function of src/src/builder.rs (lines 152 to 236):
validation, minimum-count seeding of digits then specials, fill to length,
final shuffle. -/
def generate_password (opts : PasswordOptions) (ρ : Nat → Nat) : GenOutcome :=
  if opts.length < 5 then GenOutcome.err VaultKeyError.PasswordTooShort
  else if buildPool opts = [] then GenOutcome.err VaultKeyError.NoCharacterTypesSelected
  else
    stepOr (if opts.include_digits = true ∧ 0 < effectiveMinDigits opts ∧
                filter_ambiguous opts DIGITS ≠ [] then
              seedChars ρ (filter_ambiguous opts DIGITS) 0 (effectiveMinDigits opts) []
            else some (0, ([] : List Char)))
      (fun i1 pw1 =>
        stepOr (if opts.include_specials = true ∧ 0 < effectiveMinSpecials opts ∧
                    filter_ambiguous opts SPECIALS ≠ [] then
                  seedChars ρ (filter_ambiguous opts SPECIALS) i1
                    (effectiveMinSpecials opts) pw1
                else some (i1, pw1))
          (fun i2 pw2 =>
            stepOr (fillLoop ρ (buildPool opts) opts.length i2 pw2)
              (fun i3 pw3 => GenOutcome.ok (shuffleChars ρ i3 pw3))))

/-- Builder for creating passwords, from src/src/builder.rs lines 8 to 12. -/
structure PasswordBuilder where
  options : PasswordOptions

/-- Default options of the builder, from src/src/builder.rs lines 14 to 38. -/
def PasswordBuilder.default : PasswordBuilder :=
  { options :=
    { length := 12
      include_uppercase := true
      include_lowercase := true
      include_digits := true
      include_specials := true
      min_digits := 1
      min_specials := 1
      avoid_ambiguous := false } }

/-- Setter for the length, from src/src/builder.rs lines 46 to 49. -/
def PasswordBuilder.length (b : PasswordBuilder) (len : Nat) : PasswordBuilder :=
  { b with options := { b.options with length := len } }

/-- Setter for uppercase inclusion, builder.rs lines 56 to 59. -/
def PasswordBuilder.with_uppercase (b : PasswordBuilder) (inc : Bool) :
    PasswordBuilder :=
  { b with options := { b.options with include_uppercase := inc } }

/-- Setter for lowercase inclusion, builder.rs lines 66 to 69. -/
def PasswordBuilder.with_lowercase (b : PasswordBuilder) (inc : Bool) :
    PasswordBuilder :=
  { b with options := { b.options with include_lowercase := inc } }

/-- Setter for digit inclusion, builder.rs lines 76 to 79. -/
def PasswordBuilder.with_digits (b : PasswordBuilder) (inc : Bool) :
    PasswordBuilder :=
  { b with options := { b.options with include_digits := inc } }

/-- Setter for specials inclusion, builder.rs lines 86 to 89. -/
def PasswordBuilder.with_specials (b : PasswordBuilder) (inc : Bool) :
    PasswordBuilder :=
  { b with options := { b.options with include_specials := inc } }

/-- Setter for the digit minimum, builder.rs lines 96 to 99. -/
def PasswordBuilder.min_digits (b : PasswordBuilder) (min : Nat) : PasswordBuilder :=
  { b with options := { b.options with min_digits := min } }

/-- Setter for the specials minimum, builder.rs lines 106 to 109. -/
def PasswordBuilder.min_specials (b : PasswordBuilder) (min : Nat) : PasswordBuilder :=
  { b with options := { b.options with min_specials := min } }

/-- Setter for ambiguity avoidance, builder.rs lines 116 to 119. -/
def PasswordBuilder.avoid_ambiguous (b : PasswordBuilder) (avoid : Bool) :
    PasswordBuilder :=
  { b with options := { b.options with avoid_ambiguous := avoid } }

/-- Terminal build operation, builder.rs lines 125 to 127, applied to a
randomness stream. -/
def PasswordBuilder.build (b : PasswordBuilder) (ρ : Nat → Nat) : GenOutcome :=
  generate_password b.options ρ

lemma stepOr_some (i : Nat) (pw : List Char) (f : Nat → List Char → GenOutcome) :
    stepOr (some (i, pw)) f = f i pw := rfl

lemma seedChars_spec (ρ : Nat → Nat) (chars : List Char) (hne : chars ≠ []) :
    ∀ (n i : Nat) (pw : List Char), ∃ ext : List Char,
      seedChars ρ chars i n pw = some (i + n, pw ++ ext) ∧
      ext.length = n ∧ ∀ c ∈ ext, c ∈ chars := by
  intro n
  induction n with
  | zero =>
      intro i pw
      exact ⟨[], by simp [seedChars], by simp, by simp⟩
  | succ n ih =>
      intro i pw
      have hpos : 0 < chars.length := List.length_pos.mpr hne
      have hidx : randIndex ρ i chars.length < chars.length := Nat.mod_lt _ hpos
      obtain ⟨ext, hrec, hlen, hmem⟩ :=
        ih (i + 1) (pw ++ [chars[randIndex ρ i chars.length]])
      refine ⟨chars[randIndex ρ i chars.length] :: ext, ?_, by simp [hlen], ?_⟩
      · have hstep : seedChars ρ chars i (n + 1) pw =
            seedChars ρ chars (i + 1) n (pw ++ [chars[randIndex ρ i chars.length]]) := by
          simp [seedChars, List.getElem?_eq_getElem hidx]
        rw [hstep, hrec]
        have h1 : i + 1 + n = i + (n + 1) := by omega
        have h2 : (pw ++ [chars[randIndex ρ i chars.length]]) ++ ext =
            pw ++ (chars[randIndex ρ i chars.length] :: ext) := by simp
        rw [h1, h2]
      · intro c hc
        rcases List.mem_cons.mp hc with h | h
        · subst h; exact List.getElem_mem hidx
        · exact hmem c h

lemma fillGo_spec (ρ : Nat → Nat) (pool : List Char) (hne : pool ≠ []) :
    ∀ (k i : Nat) (pw : List Char), ∃ ext : List Char,
      fillGo ρ pool k i pw = some (i + k, pw ++ ext) ∧
      ext.length = k ∧ ∀ c ∈ ext, c ∈ pool := by
  intro k
  induction k with
  | zero =>
      intro i pw
      exact ⟨[], by simp [fillGo], by simp, by simp⟩
  | succ k ih =>
      intro i pw
      have hpos : 0 < pool.length := List.length_pos.mpr hne
      have hidx : randIndex ρ i pool.length < pool.length := Nat.mod_lt _ hpos
      obtain ⟨ext, hrec, hlen, hmem⟩ :=
        ih (i + 1) (pw ++ [pool[randIndex ρ i pool.length]])
      refine ⟨pool[randIndex ρ i pool.length] :: ext, ?_, by simp [hlen], ?_⟩
      · have hstep : fillGo ρ pool (k + 1) i pw =
            fillGo ρ pool k (i + 1) (pw ++ [pool[randIndex ρ i pool.length]]) := by
          simp [fillGo, List.getElem?_eq_getElem hidx]
        rw [hstep, hrec]
        have h1 : i + 1 + k = i + (k + 1) := by omega
        have h2 : (pw ++ [pool[randIndex ρ i pool.length]]) ++ ext =
            pw ++ (pool[randIndex ρ i pool.length] :: ext) := by simp
        rw [h1, h2]
      · intro c hc
        rcases List.mem_cons.mp hc with h | h
        · subst h; exact List.getElem_mem hidx
        · exact hmem c h

lemma fillLoop_spec (ρ : Nat → Nat) (pool : List Char) (hne : pool ≠ [])
    (target i : Nat) (pw : List Char) : ∃ ext : List Char,
      fillLoop ρ pool target i pw = some (i + (target - pw.length), pw ++ ext) ∧
      (pw ++ ext).length = max target pw.length ∧ ∀ c ∈ ext, c ∈ pool := by
  obtain ⟨ext, heq, hlen, hmem⟩ := fillGo_spec ρ pool hne (target - pw.length) i pw
  refine ⟨ext, heq, ?_, hmem⟩
  rw [List.length_append, hlen]
  rcases Nat.le_total target pw.length with h | h
  · rw [max_eq_right h]; omega
  · rw [max_eq_left h]; omega

lemma shuffleGo_perm (ρ : Nat → Nat) :
    ∀ (fuel i : Nat) (l : List Char), l.length ≤ fuel →
      (shuffleGo ρ fuel i l).Perm l := by
  intro fuel
  induction fuel with
  | zero =>
      intro i l hl
      have hnil : l = [] := List.eq_nil_of_length_eq_zero (Nat.le_zero.mp hl)
      subst hnil
      simp [shuffleGo]
  | succ fuel ih =>
      intro i l hl
      rcases eq_or_ne l [] with hnil | hne
      · subst hnil
        simp [shuffleGo]
      · have hpos : 0 < l.length := List.length_pos.mpr hne
        have hidx : randIndex ρ i l.length < l.length := Nat.mod_lt _ hpos
        have hm : l[randIndex ρ i l.length] ∈ l := List.getElem_mem hidx
        have hlen : (l.erase l[randIndex ρ i l.length]).length ≤ fuel := by
          rw [List.length_erase_of_mem hm]; omega
        have hperm := ih (i + 1) (l.erase l[randIndex ρ i l.length]) hlen
        have hstep : shuffleGo ρ (fuel + 1) i l =
            l[randIndex ρ i l.length] ::
              shuffleGo ρ fuel (i + 1) (l.erase l[randIndex ρ i l.length]) := by
          simp [shuffleGo, List.getElem?_eq_getElem hidx]
        rw [hstep]
        exact (hperm.cons _).trans (List.perm_cons_erase hm).symm

lemma shuffleChars_perm (ρ : Nat → Nat) (i : Nat) (l : List Char) :
    (shuffleChars ρ i l).Perm l :=
  shuffleGo_perm ρ l.length i l le_rfl

lemma effectiveMinDigits_le (opts : PasswordOptions) :
    effectiveMinDigits opts ≤ opts.length := by
  unfold effectiveMinDigits
  split
  · exact min_le_right _ _
  · exact le_trans (min_le_right _ _) (Nat.zero_le _)

lemma effective_sum_le (opts : PasswordOptions) :
    effectiveMinDigits opts + effectiveMinSpecials opts ≤ opts.length := by
  have hd := effectiveMinDigits_le opts
  unfold effectiveMinSpecials
  split
  · have hs : min opts.min_specials (opts.length - effectiveMinDigits opts) ≤
        opts.length - effectiveMinDigits opts := min_le_right _ _
    omega
  · have hs : min opts.min_specials 0 ≤ 0 := min_le_right _ _
    omega

lemma digits_filtered_ne (opts : PasswordOptions) :
    filter_ambiguous opts DIGITS ≠ [] := by
  unfold filter_ambiguous
  split <;> decide

lemma filter_ambiguous_subset (opts : PasswordOptions) (l : List Char) :
    ∀ c ∈ filter_ambiguous opts l, c ∈ l := by
  unfold filter_ambiguous
  split
  · intro c hc
    exact (List.mem_filter.mp hc).1
  · intro c hc
    exact hc

lemma filter_ambiguous_not_ambiguous (opts : PasswordOptions)
    (ha : opts.avoid_ambiguous = true) (l : List Char) :
    ∀ c ∈ filter_ambiguous opts l, c ∉ AMBIGUOUS := by
  intro c hc
  simp only [filter_ambiguous, ha, if_true] at hc
  exact of_decide_eq_true (List.mem_filter.mp hc).2

lemma buildPool_not_ambiguous (opts : PasswordOptions)
    (ha : opts.avoid_ambiguous = true) :
    ∀ c ∈ buildPool opts, c ∉ AMBIGUOUS := by
  intro c hc
  simp only [buildPool, ha, if_true] at hc
  exact of_decide_eq_true (List.mem_filter.mp hc).2

lemma generate_ok_spec (opts : PasswordOptions) (ρ : Nat → Nat)
    (h5 : 5 ≤ opts.length) (hp : buildPool opts ≠ []) :
    ∃ pw : List Char,
      generate_password opts ρ = GenOutcome.ok pw ∧
      pw.length = opts.length ∧
      (∀ c ∈ pw, c ∈ buildPool opts ∨
        (opts.include_digits = true ∧ c ∈ filter_ambiguous opts DIGITS) ∨
        (opts.include_specials = true ∧ c ∈ filter_ambiguous opts SPECIALS)) ∧
      (opts.include_digits = true →
        effectiveMinDigits opts ≤ pw.countP (fun c => decide (c ∈ DIGITS))) := by
  classical
  have hstep1 : ∃ (i1 : Nat) (ext1 : List Char),
      (if opts.include_digits = true ∧ 0 < effectiveMinDigits opts ∧
          filter_ambiguous opts DIGITS ≠ [] then
        seedChars ρ (filter_ambiguous opts DIGITS) 0 (effectiveMinDigits opts) []
      else some (0, ([] : List Char))) = some (i1, ext1) ∧
      ext1.length ≤ effectiveMinDigits opts ∧
      (∀ c ∈ ext1, opts.include_digits = true ∧ c ∈ filter_ambiguous opts DIGITS) ∧
      (opts.include_digits = true →
        effectiveMinDigits opts ≤ ext1.countP (fun c => decide (c ∈ DIGITS))) := by
    by_cases hg : opts.include_digits = true ∧ 0 < effectiveMinDigits opts ∧
        filter_ambiguous opts DIGITS ≠ []
    · obtain ⟨ext, heq, hlen, hmem⟩ :=
        seedChars_spec ρ (filter_ambiguous opts DIGITS) hg.2.2
          (effectiveMinDigits opts) 0 []
      rw [List.nil_append] at heq
      refine ⟨0 + effectiveMinDigits opts, ext, by rw [if_pos hg]; exact heq,
        le_of_eq hlen, fun c hc => ⟨hg.1, hmem c hc⟩, fun _ => ?_⟩
      have hall : ∀ c ∈ ext, (fun c => decide (c ∈ DIGITS)) c = true := by
        intro c hc
        exact decide_eq_true (filter_ambiguous_subset opts DIGITS c (hmem c hc))
      rw [List.countP_eq_length.mpr hall, hlen]
    · refine ⟨0, [], by rw [if_neg hg], by simp, by simp, ?_⟩
      intro hd
      have hne := digits_filtered_ne opts
      have hz : ¬ 0 < effectiveMinDigits opts := fun hpos => hg ⟨hd, hpos, hne⟩
      have hz0 : effectiveMinDigits opts = 0 := by omega
      simp [hz0]
  obtain ⟨i1, ext1, hs1, hlen1, hmem1, hcnt1⟩ := hstep1
  have hstep2 : ∃ (i2 : Nat) (ext2 : List Char),
      (if opts.include_specials = true ∧ 0 < effectiveMinSpecials opts ∧
          filter_ambiguous opts SPECIALS ≠ [] then
        seedChars ρ (filter_ambiguous opts SPECIALS) i1 (effectiveMinSpecials opts) ext1
      else some (i1, ext1)) = some (i2, ext1 ++ ext2) ∧
      ext2.length ≤ effectiveMinSpecials opts ∧
      (∀ c ∈ ext2, opts.include_specials = true ∧ c ∈ filter_ambiguous opts SPECIALS) := by
    by_cases hg : opts.include_specials = true ∧ 0 < effectiveMinSpecials opts ∧
        filter_ambiguous opts SPECIALS ≠ []
    · obtain ⟨ext, heq, hlen, hmem⟩ :=
        seedChars_spec ρ (filter_ambiguous opts SPECIALS) hg.2.2
          (effectiveMinSpecials opts) i1 ext1
      exact ⟨i1 + effectiveMinSpecials opts, ext, by rw [if_pos hg]; exact heq,
        le_of_eq hlen, fun c hc => ⟨hg.1, hmem c hc⟩⟩
    · exact ⟨i1, [], by rw [if_neg hg]; simp, by simp, by simp⟩
  obtain ⟨i2, ext2, hs2, hlen2, hmem2⟩ := hstep2
  have hlen12 : (ext1 ++ ext2).length ≤ opts.length := by
    have hsum := effective_sum_le opts
    rw [List.length_append]
    omega
  obtain ⟨ext3, hfe, hflen, hfmem⟩ :=
    fillLoop_spec ρ (buildPool opts) hp opts.length i2 (ext1 ++ ext2)
  have hmax : max opts.length (ext1 ++ ext2).length = opts.length :=
    max_eq_left hlen12
  have hperm := shuffleChars_perm ρ
    (i2 + (opts.length - (ext1 ++ ext2).length)) ((ext1 ++ ext2) ++ ext3)
  refine ⟨shuffleChars ρ (i2 + (opts.length - (ext1 ++ ext2).length))
    ((ext1 ++ ext2) ++ ext3), ?_, ?_, ?_, ?_⟩
  · simp only [generate_password]
    rw [if_neg (by omega : ¬ opts.length < 5), if_neg hp]
    simp only [hs1, stepOr_some]
    simp only [hs2, stepOr_some]
    simp only [hfe, stepOr_some]
  · rw [hperm.length_eq, hflen, hmax]
  · intro c hc
    have hc3 : c ∈ (ext1 ++ ext2) ++ ext3 := (hperm.mem_iff).mp hc
    rcases List.mem_append.mp hc3 with h12 | h3
    · rcases List.mem_append.mp h12 with h1 | h2
      · exact Or.inr (Or.inl (hmem1 c h1))
      · exact Or.inr (Or.inr (hmem2 c h2))
    · exact Or.inl (hfmem c h3)
  · intro hd
    rw [hperm.countP_eq]
    rw [List.countP_append, List.countP_append]
    have hc1 := hcnt1 hd
    omega

lemma generate_ok_valid (opts : PasswordOptions) (ρ : Nat → Nat) (pw : List Char)
    (h : generate_password opts ρ = GenOutcome.ok pw) :
    5 ≤ opts.length ∧ buildPool opts ≠ [] := by
  by_cases h5 : opts.length < 5
  · rw [generate_password, if_pos h5] at h
    exact absurd h (by simp)
  · by_cases hpool : buildPool opts = []
    · rw [generate_password, if_neg h5, if_pos hpool] at h
      exact absurd h (by simp)
    · exact ⟨by omega, hpool⟩

/-- Exactly one inclusion flag set, paired with the class set of that flag. -/
def onlyClass (opts : PasswordOptions) (cls : List Char) : Prop :=
  (opts.include_uppercase = true ∧ opts.include_lowercase = false ∧
    opts.include_digits = false ∧ opts.include_specials = false ∧ cls = UPPERCASE) ∨
  (opts.include_uppercase = false ∧ opts.include_lowercase = true ∧
    opts.include_digits = false ∧ opts.include_specials = false ∧ cls = LOWERCASE) ∨
  (opts.include_uppercase = false ∧ opts.include_lowercase = false ∧
    opts.include_digits = true ∧ opts.include_specials = false ∧ cls = DIGITS) ∨
  (opts.include_uppercase = false ∧ opts.include_lowercase = false ∧
    opts.include_digits = false ∧ opts.include_specials = true ∧ cls = SPECIALS)

/-- Claim C1: for every configuration with length at least 5 and a non-empty
filtered pool, generate succeeds and the returned password has exactly
length characters. -/
theorem generate_succeeds_exact_length (opts : PasswordOptions) (ρ : Nat → Nat)
    (h5 : 5 ≤ opts.length) (hp : buildPool opts ≠ []) :
    ∃ pw : List Char, generate_password opts ρ = GenOutcome.ok pw ∧
      pw.length = opts.length := by
  obtain ⟨pw, hok, hlen, _, _⟩ := generate_ok_spec opts ρ h5 hp
  exact ⟨pw, hok, hlen⟩

/-- Claim C1 witness: a length-5 uppercase-only request succeeds with five
characters. -/
theorem generate_succeeds_exact_length_witness :
    ∃ pw : List Char,
      generate_password ⟨5, true, false, false, false, 0, 0, false⟩ (fun _ => 0) =
        GenOutcome.ok pw ∧ pw.length = 5 :=
  generate_succeeds_exact_length ⟨5, true, false, false, false, 0, 0, false⟩
    (fun _ => 0) (by decide) (by decide)

/-- Claim C2: for every configuration with length below 5, generate fails
with PasswordTooShort, regardless of every other field. -/
theorem too_short_error (opts : PasswordOptions) (ρ : Nat → Nat)
    (h5 : opts.length < 5) :
    generate_password opts ρ = GenOutcome.err VaultKeyError.PasswordTooShort := by
  rw [generate_password, if_pos h5]

/-- Claim C2 witness: a length-4 request fails with PasswordTooShort. -/
theorem too_short_error_witness :
    generate_password ⟨4, true, true, true, true, 10, 10, true⟩ (fun _ => 0) =
      GenOutcome.err VaultKeyError.PasswordTooShort :=
  too_short_error ⟨4, true, true, true, true, 10, 10, true⟩ (fun _ => 0) (by decide)

/-- Claim C3 counterexample: with every inclusion flag false and length 0 the
code reports PasswordTooShort, not NoCharacterTypesSelected, because the
length check runs first; the claim as stated is false for that input. -/
theorem no_types_claim_counterexample :
    generate_password ⟨0, false, false, false, false, 0, 0, false⟩ (fun _ => 0) =
      GenOutcome.err VaultKeyError.PasswordTooShort ∧
    GenOutcome.err VaultKeyError.PasswordTooShort ≠
      GenOutcome.err VaultKeyError.NoCharacterTypesSelected := by
  exact ⟨rfl, by decide⟩

/-- Claim C3 (amended): for every configuration with length at least 5, if
every inclusion flag is false then the assembled pool is empty, and whenever
the assembled filtered pool is empty generate fails with
NoCharacterTypesSelected. -/
theorem no_types_error (opts : PasswordOptions) (ρ : Nat → Nat)
    (h5 : 5 ≤ opts.length) :
    ((opts.include_uppercase = false ∧ opts.include_lowercase = false ∧
      opts.include_digits = false ∧ opts.include_specials = false) →
        buildPool opts = []) ∧
    (buildPool opts = [] →
      generate_password opts ρ =
        GenOutcome.err VaultKeyError.NoCharacterTypesSelected) := by
  constructor
  · rintro ⟨hu, hl, hd, hs⟩
    simp [buildPool, hu, hl, hd, hs]
  · intro hpool
    rw [generate_password, if_neg (by omega), if_pos hpool]

/-- Claim C3 witness: a length-5 request with no class included fails with
NoCharacterTypesSelected. -/
theorem no_types_error_witness :
    ((true = false ∧ true = false ∧ true = false ∧ true = false) →
      buildPool ⟨5, true, false, false, false, 1, 1, true⟩ = []) ∨
    generate_password ⟨5, false, false, false, false, 1, 1, true⟩ (fun _ => 0) =
      GenOutcome.err VaultKeyError.NoCharacterTypesSelected :=
  Or.inr ((no_types_error ⟨5, false, false, false, false, 1, 1, true⟩
    (fun _ => 0) (by decide)).2 (by decide))

/-- Claim C4: the effective minimums are clamped as min of the request
against the available length, digits first and specials against the length
remaining after digits, their sum never exceeds length, and oversized
requested minimums never cause failure: generation still succeeds with
exactly length characters. -/
theorem effective_minimums_clamped (opts : PasswordOptions) (ρ : Nat → Nat) :
    effectiveMinDigits opts =
      min opts.min_digits (if opts.include_digits then opts.length else 0) ∧
    effectiveMinSpecials opts =
      min opts.min_specials
        (if opts.include_specials then opts.length - effectiveMinDigits opts else 0) ∧
    effectiveMinDigits opts + effectiveMinSpecials opts ≤ opts.length ∧
    (5 ≤ opts.length → buildPool opts ≠ [] →
      ∃ pw : List Char, generate_password opts ρ = GenOutcome.ok pw ∧
        pw.length = opts.length) := by
  refine ⟨rfl, rfl, effective_sum_le opts, fun h5 hp => ?_⟩
  obtain ⟨pw, hok, hlen, _, _⟩ := generate_ok_spec opts ρ h5 hp
  exact ⟨pw, hok, hlen⟩

/-- Claim C4 witness: length 5 with requested minimums 3 digits and 4
specials still succeeds with exactly 5 characters. -/
theorem effective_minimums_clamped_witness :
    effectiveMinDigits ⟨5, true, true, true, true, 3, 4, false⟩ +
      effectiveMinSpecials ⟨5, true, true, true, true, 3, 4, false⟩ ≤ 5 ∧
    ∃ pw : List Char,
      generate_password ⟨5, true, true, true, true, 3, 4, false⟩ (fun _ => 0) =
        GenOutcome.ok pw ∧ pw.length = 5 := by
  have h := effective_minimums_clamped ⟨5, true, true, true, true, 3, 4, false⟩
    (fun _ => 0)
  exact ⟨h.2.2.1, h.2.2.2 (by decide) (by decide)⟩

/-- Claim C5: when digits are included with requested minimum d, any
successful output contains at least min(d, length) digit characters. -/
theorem min_digits_lower_bound (opts : PasswordOptions) (ρ : Nat → Nat)
    (pw : List Char) (hd : opts.include_digits = true)
    (hok : generate_password opts ρ = GenOutcome.ok pw) :
    min opts.min_digits opts.length ≤
      pw.countP (fun c => decide (c ∈ DIGITS)) := by
  obtain ⟨h5, hp⟩ := generate_ok_valid opts ρ pw hok
  obtain ⟨pw', hok', hlen', hmem', hcnt'⟩ := generate_ok_spec opts ρ h5 hp
  have hpw : pw = pw' := by
    rw [hok] at hok'
    injection hok' with h
  subst hpw
  have hcnt := hcnt' hd
  simpa [effectiveMinDigits, hd] using hcnt

/-- Claim C5 witness: a digits-only length-5 request with minimum 2 yields
at least two digit characters. -/
theorem min_digits_lower_bound_witness :
    min 2 5 ≤ (['0', '0', '0', '0', '0'] : List Char).countP
      (fun c => decide (c ∈ DIGITS)) :=
  min_digits_lower_bound ⟨5, false, false, true, false, 2, 0, false⟩ (fun _ => 0)
    ['0', '0', '0', '0', '0'] rfl (by decide)

/-- Claim C6: with avoid_ambiguous set, no character of a successful output
lies in the ambiguous set. -/
theorem avoid_ambiguous_excluded (opts : PasswordOptions) (ρ : Nat → Nat)
    (pw : List Char) (ha : opts.avoid_ambiguous = true)
    (hok : generate_password opts ρ = GenOutcome.ok pw) :
    ∀ c ∈ pw, c ∉ AMBIGUOUS := by
  obtain ⟨h5, hp⟩ := generate_ok_valid opts ρ pw hok
  obtain ⟨pw', hok', hlen', hmem', hcnt'⟩ := generate_ok_spec opts ρ h5 hp
  have hpw : pw = pw' := by
    rw [hok] at hok'
    injection hok' with h
  subst hpw
  intro c hc
  rcases hmem' c hc with h | ⟨_, h⟩ | ⟨_, h⟩
  · exact buildPool_not_ambiguous opts ha c h
  · exact filter_ambiguous_not_ambiguous opts ha DIGITS c h
  · exact filter_ambiguous_not_ambiguous opts ha SPECIALS c h

/-- Claim C6 witness: the character produced by an avoid-ambiguous
uppercase-only run is not ambiguous. -/
theorem avoid_ambiguous_excluded_witness : 'A' ∉ AMBIGUOUS :=
  avoid_ambiguous_excluded ⟨5, true, false, false, false, 0, 0, true⟩ (fun _ => 0)
    ['A', 'A', 'A', 'A', 'A'] rfl (by decide) 'A' (by decide)

/-- Claim C7: when exactly one class is included, every character of a
successful output belongs to that class set, filtered for ambiguity when
requested. -/
theorem single_class_membership (opts : PasswordOptions) (ρ : Nat → Nat)
    (pw cls : List Char) (hcls : onlyClass opts cls)
    (hok : generate_password opts ρ = GenOutcome.ok pw) :
    ∀ c ∈ pw, c ∈ filter_ambiguous opts cls := by
  obtain ⟨h5, hp⟩ := generate_ok_valid opts ρ pw hok
  obtain ⟨pw', hok', hlen', hmem', hcnt'⟩ := generate_ok_spec opts ρ h5 hp
  have hpw : pw = pw' := by
    rw [hok] at hok'
    injection hok' with h
  subst hpw
  have hbp : buildPool opts = filter_ambiguous opts cls := by
    rcases hcls with ⟨hu, hl, hd, hs, hc⟩ | ⟨hu, hl, hd, hs, hc⟩ |
      ⟨hu, hl, hd, hs, hc⟩ | ⟨hu, hl, hd, hs, hc⟩ <;>
      subst hc <;> simp [buildPool, filter_ambiguous, hu, hl, hd, hs]
  intro c hc
  rcases hmem' c hc with h | ⟨hdt, h⟩ | ⟨hst, h⟩
  · rw [hbp] at h
    exact h
  · rcases hcls with ⟨_, _, hd, _, _⟩ | ⟨_, _, hd, _, _⟩ |
      ⟨_, _, _, _, hceq⟩ | ⟨_, _, hd, _, _⟩
    · simp [hd] at hdt
    · simp [hd] at hdt
    · subst hceq; exact h
    · simp [hd] at hdt
  · rcases hcls with ⟨_, _, _, hs, _⟩ | ⟨_, _, _, hs, _⟩ |
      ⟨_, _, _, hs, _⟩ | ⟨_, _, _, _, hceq⟩
    · simp [hs] at hst
    · simp [hs] at hst
    · simp [hs] at hst
    · subst hceq; exact h

/-- Claim C7 witness: the character produced by a lowercase-only run lies in
the lowercase class set. -/
theorem single_class_membership_witness :
    'a' ∈ filter_ambiguous ⟨5, false, true, false, false, 0, 0, false⟩ LOWERCASE :=
  single_class_membership ⟨5, false, true, false, false, 0, 0, false⟩ (fun _ => 0)
    ['a', 'a', 'a', 'a', 'a'] LOWERCASE
    (Or.inr (Or.inl ⟨rfl, rfl, rfl, rfl, rfl⟩)) (by decide) 'a' (by decide)

/-- Claim C8: once validation passes, every random draw is over a non-empty
range and every pool lookup succeeds: the modelled panic branches are
unreachable, so the run never crashes. -/
theorem no_crash_after_validation (opts : PasswordOptions) (ρ : Nat → Nat)
    (h5 : 5 ≤ opts.length) (hp : buildPool opts ≠ []) :
    generate_password opts ρ ≠ GenOutcome.crashed := by
  obtain ⟨pw, hok, _, _, _⟩ := generate_ok_spec opts ρ h5 hp
  rw [hok]
  simp

/-- Claim C8 witness: a specials-only validated run does not crash. -/
theorem no_crash_after_validation_witness :
    generate_password ⟨6, false, false, false, true, 0, 0, false⟩ (fun _ => 0) ≠
      GenOutcome.crashed :=
  no_crash_after_validation ⟨6, false, false, false, true, 0, 0, false⟩
    (fun _ => 0) (by decide) (by decide)

/-- Claim C9: the default builder configuration is length 12, all four
classes included, minimum one digit, minimum one special, ambiguity not
avoided. -/
theorem default_builder_options :
    PasswordBuilder.default.options =
      { length := 12
        include_uppercase := true
        include_lowercase := true
        include_digits := true
        include_specials := true
        min_digits := 1
        min_specials := 1
        avoid_ambiguous := false } := rfl

/-- Claim C10: generation always terminates with a bounded result: every run
returns either a password of exactly the requested length or a validation
error, and the fill loop on any non-empty pool appends exactly the missing
number of characters, reaching the target length exactly. -/
theorem generate_total_bounded (opts : PasswordOptions) (ρ : Nat → Nat) :
    ((∃ pw : List Char, generate_password opts ρ = GenOutcome.ok pw ∧
        pw.length = opts.length) ∨
      (∃ e : VaultKeyError, generate_password opts ρ = GenOutcome.err e)) ∧
    (∀ (pool : List Char) (i : Nat) (pw : List Char), pool ≠ [] →
      ∃ ext : List Char,
        fillLoop ρ pool opts.length i pw =
          some (i + (opts.length - pw.length), pw ++ ext) ∧
        (pw ++ ext).length = max opts.length pw.length) := by
  constructor
  · by_cases h5 : opts.length < 5
    · exact Or.inr ⟨_, by rw [generate_password, if_pos h5]⟩
    · by_cases hpool : buildPool opts = []
      · exact Or.inr ⟨_, by rw [generate_password, if_neg h5, if_pos hpool]⟩
      · obtain ⟨pw, hok, hlen, _, _⟩ := generate_ok_spec opts ρ (by omega) hpool
        exact Or.inl ⟨pw, hok, hlen⟩
  · intro pool i pw hne
    obtain ⟨ext, heq, hlen, _⟩ := fillLoop_spec ρ pool hne opts.length i pw
    exact ⟨ext, heq, hlen⟩

/-- Claim C10 witness: the fill loop over the digit pool fills an empty
accumulator to exactly length 12. -/
theorem generate_total_bounded_witness :
    ∃ ext : List Char,
      fillLoop (fun _ => 0) DIGITS 12 0 [] =
        some (0 + (12 - ([] : List Char).length), [] ++ ext) ∧
      (([] : List Char) ++ ext).length = max 12 ([] : List Char).length :=
  (generate_total_bounded ⟨12, true, true, true, true, 1, 1, false⟩
    (fun _ => 0)).2 DIGITS 0 [] (by decide)

end VaultKey
